import Mathlib

/-!
Verification development for the Pixart RF OTA firmware-update engine
(`plugins/pixart-rf/fu-pxi-device.c`).

The protocol engine is shallowly embedded: byte buffers are `List Nat`
(each entry a byte value), machine integers are `Nat` with explicit
`% 2 ^ 16` (resp. `% 2 ^ 32`) where the C code relies on fixed-width
wraparound, the blocking transport is abstracted as a stream of
device notifications indexed by `Nat`, and every engine operation
returns the list of host-visible events it performed together with an
`Except` outcome mirroring the C `gboolean`/`GError` discipline.
-/

namespace PxiRf

/-- Opcode of the "begin OTA" command (`FU_PXI_DEVICE_CMD_FW_OTA_INIT`). -/
def CMD_FW_OTA_INIT : Nat := 0x10

/-- Opcode of the firmware-write acknowledgement (`FU_PXI_DEVICE_CMD_FW_WRITE`). -/
def CMD_FW_WRITE : Nat := 0x17

/-- Opcode of the firmware-upgrade command (`FU_PXI_DEVICE_CMD_FW_UPGRADE`). -/
def CMD_FW_UPGRADE : Nat := 0x18

/-- Opcode of the MCU reset command (`FU_PXI_DEVICE_CMD_FW_MCU_RESET`). -/
def CMD_FW_MCU_RESET : Nat := 0x22

/-- Opcode of the object-create command (`FU_PXI_DEVICE_CMD_FW_OBJECT_CREATE`). -/
def CMD_FW_OBJECT_CREATE : Nat := 0x25

/-- Opcode of the Init-New command (`FU_PXI_DEVICE_CMD_FW_OTA_INIT_NEW`). -/
def CMD_FW_OTA_INIT_NEW : Nat := 0x27

/-- Protocol object size ceiling (`FU_PXI_DEVICE_OBJECT_SIZE_MAX`, bytes). -/
def OBJECT_SIZE_MAX : Nat := 4096

/-- Output report identifier (`PXI_HID_DEV_OTA_OUTPUT_REPORT_ID`). -/
def OUTPUT_REPORT_ID : Nat := 0x06

/-- Feature report identifier (`PXI_HID_DEV_OTA_FEATURE_REPORT_ID`). -/
def FEATURE_REPORT_ID : Nat := 0x07

/-- Device spec-check verdict `OTA_SPEC_CHECK_OK`. -/
def OTA_SPEC_CHECK_OK : Nat := 1

/-- Device spec-check verdict `OTA_PROCESS_ILLEGAL`. -/
def OTA_PROCESS_ILLEGAL : Nat := 3

/-- Disconnect reason `OTA_RESET` (third enumerator of `ota_disconnect_reason`). -/
def OTA_RESET : Nat := 3

/-- The 16-bit wrapping byte sum of `fu_pxi_device_calculate_checksum`:
a `guint16` accumulator adds each byte, wrapping mod `2 ^ 16`. -/
def fuPxiDeviceCalculateChecksum (buf : List Nat) : Nat :=
  buf.foldl (fun c b => (c + b) % 65536) 0

/-- Modelled from the spec (section 4.2 Chunker): `fu_chunk_array_new` of
`fu-chunk.c` is not part of this plugin's source; the spec describes it as a
greedy fixed-size split of a byte buffer into addressed segments, addresses
ascending from the given start, every segment of length `cap` except possibly
a shorter final one.  The first `Nat` argument is recursion fuel, instantiated
with the buffer length. -/
def splitChunksFuel (cap : Nat) : Nat → Nat → List Nat → List (Nat × List Nat)
  | 0, _, _ => []
  | _ + 1, _, [] => []
  | fuel + 1, addr, b :: bs =>
      (addr, (b :: bs).take cap) :: splitChunksFuel cap fuel (addr + cap) ((b :: bs).drop cap)

/-- Split a buffer into `cap`-sized chunks with addresses starting at `addr`. -/
def splitChunksAt (bytes : List Nat) (addr cap : Nat) : List (Nat × List Nat) :=
  splitChunksFuel cap bytes.length addr bytes

/-- Split a buffer into `cap`-sized chunks addressed from zero, as
`fu_chunk_array_new_from_bytes (fw, 0x0, 0x0, cap)` does. -/
def splitChunks (bytes : List Nat) (cap : Nat) : List (Nat × List Nat) :=
  splitChunksAt bytes 0 cap

/-- A device notification as consumed by `fu_pxi_device_wait_notify`:
the opcode byte at offset 1 and the little-endian checksum at offset 3. -/
structure Notify where
  opcode : Nat
  checksum : Nat
deriving DecidableEq

/-- The device side of the blocking transport: the stream of notifications,
the engine consumes them in order by index. -/
def Dev : Type := Nat → Notify

/-- Session state decoded from the Init-New feature report
(the fields of `struct _FuPxiDevice` mutated by the OTA engine). -/
structure OtaState where
  status : Nat
  new_flow : Nat
  offset : Nat
  checksum : Nat
  max_object_size : Nat
  mtu_size : Nat
  prn_threshold : Nat
  spec_check_result : Nat
deriving DecidableEq

/-- Error taxonomy of the engine, one constructor per `g_set_error` site. -/
inductive PxiErr where
  | specCheckFailed (result : Nat)
  | unexpectedOpcode (got expected : Nat)
  | checksumMismatch (got expected : Nat)
  | resumeOffsetInvalid (got max : Nat)
  | resumeChecksumDiff (got expected : Nat)
  | decodeFailed
  | memcpyFailed
deriving DecidableEq

/-- Host-visible events of one update attempt, in order of occurrence. -/
inductive Event where
  | otaInitReq (req : List Nat)
  | initNewReq (req : List Nat)
  | objectCreate (addr len : Nat)
  | createAck (opcode : Nat)
  | packetWrite (data : List Nat)
  | writeAck (opcode checksum : Nat)
  | progress (done total : Nat)
  | upgradeReq (req : List Nat)
  | upgradeAck (opcode : Nat)
  | resetReq (req : List Nat)
deriving DecidableEq

/-- Little-endian 16-bit encoding (`fu_byte_array_append_uint16`). -/
def u16le (v : Nat) : List Nat := [v % 256, v / 256 % 256]

/-- Little-endian 32-bit encoding (`fu_byte_array_append_uint32`). -/
def u32le (v : Nat) : List Nat :=
  [v % 256, v / 256 % 256, v / 65536 % 256, v / 16777216 % 256]

/-- Bounds-checked byte read (`fu_common_read_uint8_safe`). -/
def read8 (buf : List Nat) (off : Nat) : Option Nat := buf.get? off

/-- Bounds-checked little-endian 16-bit read (`fu_common_read_uint16_safe`). -/
def read16 (buf : List Nat) (off : Nat) : Option Nat := do
  let lo ← buf.get? off
  let hi ← buf.get? (off + 1)
  pure (lo + 256 * hi)

/-- Bounds-checked little-endian 32-bit read (`fu_common_read_uint32_safe`). -/
def read32 (buf : List Nat) (off : Nat) : Option Nat := do
  let b0 ← buf.get? off
  let b1 ← buf.get? (off + 1)
  let b2 ← buf.get? (off + 2)
  let b3 ← buf.get? (off + 3)
  pure (b0 + 256 * b1 + 65536 * b2 + 16777216 * b3)

/-- Decoding of the Init-New feature-report response at the fixed byte
offsets read by `fu_pxi_device_fw_ota_init_new`: status at 3, flow flag at
4, resume offset at 5, checksum at 7, max object size at 9, MTU at 0xd,
PRN threshold at 0xf, spec-check result at 0x11. -/
def decodeInitNew (res : List Nat) : Option OtaState := do
  let status ← read8 res 0x3
  let new_flow ← read8 res 0x4
  let offset ← read16 res 0x5
  let checksum ← read16 res 0x7
  let mos ← read32 res 0x9
  let mtu ← read16 res 0xd
  let prn ← read16 res 0xf
  let scr ← read8 res 0x11
  pure ⟨status, new_flow, offset, checksum, mos, mtu, prn, scr⟩

/-- The Init-New request bytes built by `fu_pxi_device_fw_ota_init_new`:
feature-report identifier, opcode 0x27, image length as u32 little-endian,
the OTA setting byte 0x0, then the ten-byte `fw_version` array, which the
C code zero-initialises and never fills. -/
def fuPxiDeviceFwOtaInitNewReq (bufsz : Nat) : List Nat :=
  [FEATURE_REPORT_ID, CMD_FW_OTA_INIT_NEW] ++ u32le bufsz ++ [0] ++ List.replicate 10 0

/-- `fu_pxi_device_fw_ota_init_new`: send the request, read the feature
report back, decode the shared state, and fail unless the spec-check
verdict is `OTA_SPEC_CHECK_OK`. -/
def fuPxiDeviceFwOtaInitNew (bufsz : Nat) (res : List Nat) :
    List Event × Except PxiErr OtaState :=
  let evs := [Event.initNewReq (fuPxiDeviceFwOtaInitNewReq bufsz)]
  match decodeInitNew res with
  | none => (evs, Except.error PxiErr.decodeFailed)
  | some st =>
      if st.spec_check_result ≠ OTA_SPEC_CHECK_OK then
        (evs, Except.error (PxiErr.specCheckFailed st.spec_check_result))
      else (evs, Except.ok st)

/-- `fu_pxi_device_fw_object_create`: send the object-create request with the
chunk's address and length, await a notification, and require its opcode to
echo `CMD_FW_OBJECT_CREATE`; returns the next notification index. -/
def fuPxiDeviceFwObjectCreate (dev : Dev) (ndx addr len : Nat) :
    List Event × Except PxiErr Nat :=
  let n := dev ndx
  let evs := [Event.objectCreate addr len, Event.createAck n.opcode]
  if n.opcode ≠ CMD_FW_OBJECT_CREATE then
    (evs, Except.error (PxiErr.unexpectedOpcode n.opcode CMD_FW_OBJECT_CREATE))
  else (evs, Except.ok (ndx + 1))

/-- The packet loop of `fu_pxi_device_write_chunk`: write each packet
payload, increment the PRN counter, and await a notification once the
incremented counter reaches the threshold (`prn >= self->prn_threshold`)
or the last packet has just been sent; the awaited notification must carry
opcode `CMD_FW_WRITE`, its checksum overwrites `checksum_device`, and the
counter resets to zero.  Arguments after the packet list: current PRN
counter, next notification index, current `checksum_device`; on success
returns the next notification index and the last `checksum_device`. -/
def fuPxiDeviceWritePackets (dev : Dev) (thr : Nat) :
    List (Nat × List Nat) → Nat → Nat → Nat →
    List Event × Except PxiErr (Nat × Nat)
  | [], _, ndx, cdev => ([], Except.ok (ndx, cdev))
  | (_, pdata) :: rest, prn, ndx, cdev =>
      if prn + 1 ≥ thr ∨ rest = [] then
        let n := dev ndx
        if n.opcode ≠ CMD_FW_WRITE then
          ([Event.packetWrite pdata, Event.writeAck n.opcode n.checksum],
           Except.error (PxiErr.unexpectedOpcode n.opcode CMD_FW_WRITE))
        else
          let r := fuPxiDeviceWritePackets dev thr rest 0 (ndx + 1) n.checksum
          (Event.packetWrite pdata :: Event.writeAck n.opcode n.checksum :: r.1, r.2)
      else
        let r := fuPxiDeviceWritePackets dev thr rest (prn + 1) ndx cdev
        (Event.packetWrite pdata :: r.1, r.2)

/-- `fu_pxi_device_write_chunk`: create the firmware object, stream its
packets under PRN flow control, then add the object's checksum into the
running accumulator (16-bit wraparound) and require the device's last
reported checksum to equal that accumulator. -/
def fuPxiDeviceWriteChunk (st : OtaState) (dev : Dev) (ndx addr : Nat)
    (data : List Nat) : List Event × Except PxiErr (OtaState × Nat) :=
  let cks := fuPxiDeviceCalculateChecksum data
  match fuPxiDeviceFwObjectCreate dev ndx addr data.length with
  | (evs, Except.error e) => (evs, Except.error e)
  | (evs, Except.ok ndx1) =>
      let packets := splitChunksAt data addr st.mtu_size
      match fuPxiDeviceWritePackets dev st.prn_threshold packets 0 ndx1 0 with
      | (evs2, Except.error e) => (evs ++ evs2, Except.error e)
      | (evs2, Except.ok (ndx2, cdev)) =>
          let total := (st.checksum + cks) % 65536
          if cdev ≠ total then
            (evs ++ evs2, Except.error (PxiErr.checksumMismatch cdev total))
          else
            (evs ++ evs2, Except.ok ({ st with checksum := total }, ndx2))

/-- The object loop of `fu_pxi_device_write_firmware`: write each remaining
chunk in turn, reporting progress `(i, chunks->len)` after each one, where
`i` is the chunk's absolute index. -/
def fuPxiDeviceWriteChunksLoop (dev : Dev) (total : Nat) :
    List (Nat × List Nat) → Nat → OtaState → Nat →
    List Event × Except PxiErr (OtaState × Nat)
  | [], _, st, ndx => ([], Except.ok (st, ndx))
  | (addr, data) :: rest, i, st, ndx =>
      match fuPxiDeviceWriteChunk st dev ndx addr data with
      | (evs, Except.error e) => (evs, Except.error e)
      | (evs, Except.ok (st1, ndx1)) =>
          let r := fuPxiDeviceWriteChunksLoop dev total rest (i + 1) st1 ndx1
          (evs ++ Event.progress i total :: r.1, r.2)

/-- The running checksum recomputed by `fu_pxi_device_check_support_resume`:
`checksum_tmp` accumulates the per-chunk checksums of the first `n` chunks
in a `guint16`, wrapping mod `2 ^ 16`. -/
def resumeChecksumTmp (chunks : List (Nat × List Nat)) (n : Nat) : Nat :=
  ((chunks.take n).map (fun c => fuPxiDeviceCalculateChecksum c.2)).foldl
    (fun a b => (a + b) % 65536) 0

/-- `fu_pxi_device_check_support_resume`: fail if the device-reported offset
exceeds the chunk count, else recompute the checksum of the first `offset`
chunks and fail unless it matches the device-reported checksum. -/
def fuPxiDeviceCheckSupportResume (st : OtaState) (fw : List Nat) :
    Except PxiErr Unit :=
  let chunks := splitChunks fw OBJECT_SIZE_MAX
  if chunks.length < st.offset then
    Except.error (PxiErr.resumeOffsetInvalid st.offset chunks.length)
  else
    let tmp := resumeChecksumTmp chunks st.offset
    if st.checksum ≠ tmp then
      Except.error (PxiErr.resumeChecksumDiff st.checksum tmp)
    else Except.ok ()

/-- The resume decision of `fu_pxi_device_write_firmware`: any failure of
the resume check is absorbed (logged via `g_debug` only) and both the
offset and the checksum accumulator are reset to zero. -/
def resumeAdjust (st : OtaState) (fw : List Nat) : OtaState :=
  match fuPxiDeviceCheckSupportResume st fw with
  | Except.error _ => { st with offset := 0, checksum := 0 }
  | Except.ok _ => st

/-- The ten-byte zero-padded version field as built by `fu_memcpy_safe` into
the zero-initialised `fw_version` array of `fu_pxi_device_fw_upgrade`. -/
def padVersion (version : List Nat) : List Nat :=
  version ++ List.replicate (10 - version.length) 0

/-- The upgrade request bytes of `fu_pxi_device_fw_upgrade`: output-report
identifier, opcode 0x18, image length as u32 little-endian, whole-image
checksum as u16 little-endian, then the padded version field. -/
def fuPxiDeviceFwUpgradeReq (fw version : List Nat) : List Nat :=
  [OUTPUT_REPORT_ID, CMD_FW_UPGRADE] ++ u32le fw.length
    ++ u16le (fuPxiDeviceCalculateChecksum fw) ++ padVersion version

/-- `fu_pxi_device_fw_upgrade`: build and send the upgrade request (failing
if the version string does not fit the ten-byte field, as `fu_memcpy_safe`
does), await a notification, and require opcode `CMD_FW_UPGRADE`. -/
def fuPxiDeviceFwUpgrade (dev : Dev) (ndx : Nat) (fw version : List Nat) :
    List Event × Except PxiErr Nat :=
  if 10 < version.length then ([], Except.error PxiErr.memcpyFailed)
  else
    let n := dev ndx
    let evs := [Event.upgradeReq (fuPxiDeviceFwUpgradeReq fw version),
                Event.upgradeAck n.opcode]
    if n.opcode ≠ CMD_FW_UPGRADE then
      (evs, Except.error (PxiErr.unexpectedOpcode n.opcode CMD_FW_UPGRADE))
    else (evs, Except.ok (ndx + 1))

/-- The three bytes written by `fu_pxi_device_reset`. -/
def fuPxiDeviceResetReq : List Nat :=
  [OUTPUT_REPORT_ID, CMD_FW_MCU_RESET, OTA_RESET]

/-- `fu_pxi_device_write_firmware`: OTA init, Init-New negotiation, the
resume decision, the object loop from the (possibly reset) offset, the
upgrade command, and the final reset.  `initRes` is the feature report the
device returns to Init-New; `dev` the notification stream. -/
def fuPxiDeviceWriteFirmware (fw version initRes : List Nat) (dev : Dev) :
    List Event × Except PxiErr OtaState :=
  let ev0 := Event.otaInitReq [OUTPUT_REPORT_ID, CMD_FW_OTA_INIT]
  match fuPxiDeviceFwOtaInitNew fw.length initRes with
  | (evs1, Except.error e) => (ev0 :: evs1, Except.error e)
  | (evs1, Except.ok st0) =>
      let chunks := splitChunks fw OBJECT_SIZE_MAX
      let st := resumeAdjust st0 fw
      match fuPxiDeviceWriteChunksLoop dev chunks.length
              (chunks.drop st.offset) st.offset st 0 with
      | (evs2, Except.error e) => (ev0 :: evs1 ++ evs2, Except.error e)
      | (evs2, Except.ok (st1, ndx1)) =>
          match fuPxiDeviceFwUpgrade dev ndx1 fw version with
          | (evs3, Except.error e) => (ev0 :: evs1 ++ evs2 ++ evs3, Except.error e)
          | (evs3, Except.ok _) =>
              (ev0 :: evs1 ++ evs2 ++ evs3 ++ [Event.resetReq fuPxiDeviceResetReq],
               Except.ok st1)

/-- Positions (0-based packet indexes) after which a write acknowledgement
was awaited, recovered from an event trace; the second argument counts the
packets already seen. -/
def awaitPositions : List Event → Nat → List Nat
  | [], _ => []
  | Event.packetWrite _ :: r, k => awaitPositions r (k + 1)
  | Event.writeAck _ _ :: r, k => (k - 1) :: awaitPositions r k
  | _ :: r, k => awaitPositions r k

/-- The checksum carried by the last write acknowledgement of a trace. -/
def lastWriteAckChecksum : List Event → Option Nat
  | [] => none
  | Event.writeAck _ ck :: r =>
      match lastWriteAckChecksum r with
      | none => some ck
      | some c => some c
  | _ :: r => lastWriteAckChecksum r

/-- The packet payloads of a trace, in order. -/
def packetsOf (evs : List Event) : List (List Nat) :=
  evs.filterMap fun e =>
    match e with
    | Event.packetWrite d => some d
    | _ => none

/-- The progress reports of a trace, in order. -/
def progressOf (evs : List Event) : List (Nat × Nat) :=
  evs.filterMap fun e =>
    match e with
    | Event.progress d t => some (d, t)
    | _ => none

/-- Whether an event belongs to the Transfer Engine proper: an object-create
command or a packet payload write. -/
def isTransferEvent : Event → Bool
  | Event.objectCreate _ _ => true
  | Event.packetWrite _ => true
  | _ => false

/-- Checks that every run of consecutive packet writes between two awaited
write acknowledgements has length at most `bound`; the counter argument is
the number of packets since the last acknowledgement. -/
def packetRunsOk (bound : Nat) : List Event → Nat → Bool
  | [], _ => true
  | Event.packetWrite _ :: r, c => decide (c + 1 ≤ bound) && packetRunsOk bound r (c + 1)
  | Event.writeAck _ _ :: r, _ => packetRunsOk bound r 0
  | _ :: r, c => packetRunsOk bound r c

/-- Follows the spec's words (section 4.5, flow control): walking `m`
packets with a packet counter starting at `prn`, a notification is awaited
when either the incremented counter reaches `thr` or the last packet has
just been sent, whichever comes first, and the counter resets to 0 after
each await; returns the packet positions (counting from `k`) after which an
await happens. -/
def specAwaitSchedule (thr : Nat) : Nat → Nat → Nat → List Nat
  | 0, _, _ => []
  | m + 1, prn, k =>
      if prn + 1 = thr ∨ m = 0 then k :: specAwaitSchedule thr m 0 (k + 1)
      else specAwaitSchedule thr m (prn + 1) (k + 1)

/-- The spec's await schedule for `n` packets, counter and positions from 0. -/
def specAwaits (thr n : Nat) : List Nat := specAwaitSchedule thr n 0 0

/-- The 16-bit wrapping accumulation of per-object checksums along a chunk
list, starting from `init`. -/
def runningChecksum (init : Nat) (chunks : List (Nat × List Nat)) : Nat :=
  chunks.foldl (fun a c => (a + fuPxiDeviceCalculateChecksum c.2) % 65536) init

/-- Equality of engine outcomes is decidable, so concrete runs evaluate. -/
instance instExceptDecEq {ε α : Type} [DecidableEq ε] [DecidableEq α] :
    DecidableEq (Except ε α) := fun x y =>
  match x, y with
  | Except.error a, Except.error b =>
      decidable_of_iff (a = b) ⟨fun h => by rw [h], fun h => Except.error.inj h⟩
  | Except.ok a, Except.ok b =>
      decidable_of_iff (a = b) ⟨fun h => by rw [h], fun h => Except.ok.inj h⟩
  | Except.error _, Except.ok _ => isFalse fun h => Except.noConfusion h
  | Except.ok _, Except.error _ => isFalse fun h => Except.noConfusion h

/-- A concrete negotiated session: mtu 4, PRN threshold 2, spec check ok. -/
def stA : OtaState := ⟨0, 0, 0, 0, 4096, 4, 2, 1⟩

/-- A device whose first write acknowledgement reports a garbage checksum
(0x1234) while the second reports the correct total 55. -/
def devGarbageMid : Dev := fun n =>
  if n = 0 then ⟨0x25, 0⟩ else if n = 1 then ⟨0x17, 0x1234⟩ else ⟨0x17, 55⟩

/-- A device answering a one-object transfer of the byte 7 compliantly:
object-create echo, a write acknowledgement with checksum 7, upgrade echo. -/
def devByte7 : Dev := fun n =>
  if n = 0 then ⟨0x25, 0⟩ else if n = 1 then ⟨0x17, 7⟩ else ⟨0x18, 0⟩

/-- A device that echoes the upgrade opcode on every notification. -/
def devUpgradeEcho : Dev := fun _ => ⟨0x18, 0⟩

/-- A compliant device for the ten-byte scenario of the spec: object-create
echo, then write acknowledgements carrying the running checksums 36 and 55. -/
def devTenByte : Dev := fun n =>
  if n = 0 then ⟨0x25, 0⟩ else if n = 1 then ⟨0x17, 36⟩ else ⟨0x17, 55⟩

/-- An Init-New response reporting resume offset 2, checksum 0, max object
size 4096, mtu 4, PRN threshold 2, and a passing spec check. -/
def initResOffset2 : List Nat :=
  [0, 0, 0, 0, 0, 2, 0, 0, 0, 0, 16, 0, 0, 4, 0, 2, 0, 1] ++ List.replicate 14 0

/-- An Init-New response reporting resume offset 1 with (stale) checksum 3,
max object size 4096, mtu 4, PRN threshold 2, and a passing spec check. -/
def initResStale : List Nat :=
  [0, 0, 0, 0, 0, 1, 0, 3, 0, 0, 16, 0, 0, 4, 0, 2, 0, 1] ++ List.replicate 14 0

/-- An Init-New response whose spec-check verdict is `OTA_PROCESS_ILLEGAL`. -/
def initResIllegal : List Nat :=
  [0, 0, 0, 0, 0, 0, 0, 0, 0, 0, 16, 0, 0, 4, 0, 2, 0, 3] ++ List.replicate 14 0

/-- An Init-New response reporting a fresh transfer: offset 0, checksum 0,
max object size 4096, mtu 4, PRN threshold 2, passing spec check. -/
def initResFresh : List Nat :=
  [0, 0, 0, 0, 0, 0, 0, 0, 0, 0, 16, 0, 0, 4, 0, 2, 0, 1] ++ List.replicate 14 0

/-- An Init-New response reporting a fully transferred one-object image of
the byte 7: offset 1, checksum 7, passing spec check. -/
def initResDone : List Nat :=
  [0, 0, 0, 0, 0, 1, 0, 7, 0, 0, 16, 0, 0, 4, 0, 2, 0, 1] ++ List.replicate 14 0

/-- The Init-New request layout the specification's wording describes: total
length as u32 little-endian, a target selector byte, then the firmware's
version tag as a fixed-width ten-byte zero-padded field.  Stated from the
spec's words for comparison against `fuPxiDeviceFwOtaInitNewReq`. -/
def initNewReqPerSpec (bufsz : Nat) (version : List Nat) : List Nat :=
  [FEATURE_REPORT_ID, CMD_FW_OTA_INIT_NEW] ++ u32le bufsz ++ [0]
    ++ (version.take 10 ++ List.replicate (10 - (version.take 10).length) 0)

/-- Folding the 16-bit wrapping add from a reduced accumulator is the plain
sum reduced mod `2 ^ 16`. -/
theorem foldl_mod_add (l : List Nat) : ∀ a : Nat, a < 65536 →
    l.foldl (fun c b => (c + b) % 65536) a = (a + l.sum) % 65536 := by
  induction l with
  | nil =>
      intro a ha
      simp [Nat.mod_eq_of_lt ha]
  | cons x xs ih =>
      intro a ha
      have hlt : (a + x) % 65536 < 65536 := Nat.mod_lt _ (by omega)
      calc (x :: xs).foldl (fun c b => (c + b) % 65536) a
          = xs.foldl (fun c b => (c + b) % 65536) ((a + x) % 65536) := rfl
        _ = ((a + x) % 65536 + xs.sum) % 65536 := ih _ hlt
        _ = (a + x + xs.sum) % 65536 := by omega
        _ = (a + (x :: xs).sum) % 65536 := by simp [Nat.add_assoc]

/-- The wire checksum is the byte sum mod `2 ^ 16`. -/
theorem checksum_eq_sum_mod (l : List Nat) :
    fuPxiDeviceCalculateChecksum l = l.sum % 65536 := by
  have h := foldl_mod_add l 0 (by omega)
  simpa [fuPxiDeviceCalculateChecksum] using h

/-- C6: for all byte buffers `a` and `b`, the checksum of their concatenation
equals the sum of their checksums reduced mod `2 ^ 16`; the 16-bit wrapping
byte sum of `fu_pxi_device_calculate_checksum` is additive over concatenation. -/
theorem c6_checksum_additive (a b : List Nat) :
    fuPxiDeviceCalculateChecksum (a ++ b) =
      (fuPxiDeviceCalculateChecksum a + fuPxiDeviceCalculateChecksum b) % 65536 := by
  rw [checksum_eq_sum_mod, checksum_eq_sum_mod, checksum_eq_sum_mod]
  rw [List.sum_append, Nat.add_mod]

/-- On a successful packet loop every awaited write acknowledgement carried
opcode `CMD_FW_WRITE`, and the returned `checksum_device` is the checksum of
the last acknowledgement, or the initial value when none was awaited. -/
theorem writePackets_ok (dev : Dev) (thr : Nat) :
    ∀ (packets : List (Nat × List Nat)) (prn ndx cdev : Nat)
      (evs : List Event) (ndx2 cdev2 : Nat),
      fuPxiDeviceWritePackets dev thr packets prn ndx cdev =
        (evs, Except.ok (ndx2, cdev2)) →
      (∀ op ck, Event.writeAck op ck ∈ evs → op = CMD_FW_WRITE) ∧
      cdev2 = (lastWriteAckChecksum evs).getD cdev := by
  intro packets
  induction packets with
  | nil =>
      intro prn ndx cdev evs ndx2 cdev2 h
      simp only [fuPxiDeviceWritePackets, Prod.mk.injEq, Except.ok.injEq] at h
      obtain ⟨h1, h2, h3⟩ := h
      subst h1; subst h3
      refine ⟨by simp, ?_⟩
      simp [lastWriteAckChecksum]
  | cons p rest ih =>
      obtain ⟨pa, pd⟩ := p
      intro prn ndx cdev evs ndx2 cdev2 h
      simp only [fuPxiDeviceWritePackets] at h
      by_cases hb : prn + 1 ≥ thr ∨ rest = []
      · rw [if_pos hb] at h
        by_cases hop : (dev ndx).opcode ≠ CMD_FW_WRITE
        · rw [if_pos hop] at h
          simp only [Prod.mk.injEq] at h
          exact absurd h.2 (by simp)
        · rw [if_neg hop] at h
          push_neg at hop
          rcases hcall : fuPxiDeviceWritePackets dev thr rest 0 (ndx + 1)
              (dev ndx).checksum with ⟨evs1, res1⟩
          rw [hcall] at h
          simp only [Prod.mk.injEq] at h
          obtain ⟨hevs, hres⟩ := h
          subst hevs
          obtain ⟨ihop, ihcd⟩ := ih 0 (ndx + 1) (dev ndx).checksum evs1 ndx2 cdev2
            (by rw [hcall, hres])
          constructor
          · intro op ck hm
            rcases List.mem_cons.mp hm with h1 | hm
            · simp at h1
            rcases List.mem_cons.mp hm with h1 | hm
            · rw [Event.writeAck.injEq] at h1
              rw [h1.1, hop]
            · exact ihop op ck hm
          · simp only [lastWriteAckChecksum]
            cases hl : lastWriteAckChecksum evs1 with
            | none => rw [hl] at ihcd; simpa using ihcd
            | some c => rw [hl] at ihcd; simpa using ihcd
      · rw [if_neg hb] at h
        rcases hcall : fuPxiDeviceWritePackets dev thr rest (prn + 1) ndx cdev
          with ⟨evs1, res1⟩
        rw [hcall] at h
        simp only [Prod.mk.injEq] at h
        obtain ⟨hevs, hres⟩ := h
        subst hevs
        obtain ⟨ihop, ihcd⟩ := ih (prn + 1) ndx cdev evs1 ndx2 cdev2
          (by rw [hcall, hres])
        constructor
        · intro op ck hm
          rcases List.mem_cons.mp hm with h1 | hm
          · simp at h1
          · exact ihop op ck hm
        · simpa only [lastWriteAckChecksum] using ihcd

/-- A successful packet loop over a nonempty packet list awaits at least one
write acknowledgement: the final packet always triggers an await. -/
theorem writePackets_last_ack (dev : Dev) (thr : Nat) :
    ∀ (packets : List (Nat × List Nat)) (prn ndx cdev : Nat)
      (evs : List Event) (ndx2 cdev2 : Nat),
      packets ≠ [] →
      fuPxiDeviceWritePackets dev thr packets prn ndx cdev =
        (evs, Except.ok (ndx2, cdev2)) →
      lastWriteAckChecksum evs ≠ none := by
  intro packets
  induction packets with
  | nil => intro _ _ _ _ _ _ hne _; exact absurd rfl hne
  | cons p rest ih =>
      obtain ⟨pa, pd⟩ := p
      intro prn ndx cdev evs ndx2 cdev2 _ h
      simp only [fuPxiDeviceWritePackets] at h
      by_cases hb : prn + 1 ≥ thr ∨ rest = []
      · rw [if_pos hb] at h
        by_cases hop : (dev ndx).opcode ≠ CMD_FW_WRITE
        · rw [if_pos hop] at h
          simp only [Prod.mk.injEq] at h
          exact absurd h.2 (by simp)
        · rw [if_neg hop] at h
          rcases hcall : fuPxiDeviceWritePackets dev thr rest 0 (ndx + 1)
              (dev ndx).checksum with ⟨evs1, res1⟩
          rw [hcall] at h
          simp only [Prod.mk.injEq] at h
          obtain ⟨hevs, _⟩ := h
          subst hevs
          simp only [lastWriteAckChecksum]
          cases lastWriteAckChecksum evs1 <;> simp
      · rw [if_neg hb] at h
        have hrest : rest ≠ [] := by
          intro hr; exact hb (Or.inr hr)
        rcases hcall : fuPxiDeviceWritePackets dev thr rest (prn + 1) ndx cdev
          with ⟨evs1, res1⟩
        rw [hcall] at h
        simp only [Prod.mk.injEq] at h
        obtain ⟨hevs, hres⟩ := h
        subst hevs
        have := ih (prn + 1) ndx cdev evs1 ndx2 cdev2 hrest (by rw [hcall, hres])
        simpa only [lastWriteAckChecksum] using this

/-- A failing packet loop failed on an awaited acknowledgement whose opcode
was not `CMD_FW_WRITE`, and that acknowledgement is in the trace. -/
theorem writePackets_err (dev : Dev) (thr : Nat) :
    ∀ (packets : List (Nat × List Nat)) (prn ndx cdev : Nat)
      (evs : List Event) (e : PxiErr),
      fuPxiDeviceWritePackets dev thr packets prn ndx cdev =
        (evs, Except.error e) →
      ∃ op ck, Event.writeAck op ck ∈ evs ∧ op ≠ CMD_FW_WRITE ∧
        e = PxiErr.unexpectedOpcode op CMD_FW_WRITE := by
  intro packets
  induction packets with
  | nil =>
      intro prn ndx cdev evs e h
      simp only [fuPxiDeviceWritePackets, Prod.mk.injEq] at h
      exact absurd h.2 (by simp)
  | cons p rest ih =>
      obtain ⟨pa, pd⟩ := p
      intro prn ndx cdev evs e h
      simp only [fuPxiDeviceWritePackets] at h
      by_cases hb : prn + 1 ≥ thr ∨ rest = []
      · rw [if_pos hb] at h
        by_cases hop : (dev ndx).opcode ≠ CMD_FW_WRITE
        · rw [if_pos hop] at h
          simp only [Prod.mk.injEq, Except.error.injEq] at h
          obtain ⟨hevs, herr⟩ := h
          subst hevs
          exact ⟨(dev ndx).opcode, (dev ndx).checksum, by simp, hop, herr.symm⟩
        · rw [if_neg hop] at h
          push_neg at hop
          rcases hcall : fuPxiDeviceWritePackets dev thr rest 0 (ndx + 1)
              (dev ndx).checksum with ⟨evs1, res1⟩
          rw [hcall] at h
          simp only [Prod.mk.injEq] at h
          obtain ⟨hevs, hres⟩ := h
          subst hevs
          obtain ⟨op, ck, hm, hne, he⟩ := ih 0 (ndx + 1) (dev ndx).checksum evs1 e
            (by rw [hcall, hres])
          exact ⟨op, ck, by simp [hm], hne, he⟩
      · rw [if_neg hb] at h
        rcases hcall : fuPxiDeviceWritePackets dev thr rest (prn + 1) ndx cdev
          with ⟨evs1, res1⟩
        rw [hcall] at h
        simp only [Prod.mk.injEq] at h
        obtain ⟨hevs, hres⟩ := h
        subst hevs
        obtain ⟨op, ck, hm, hne, he⟩ := ih (prn + 1) ndx cdev evs1 e
          (by rw [hcall, hres])
        exact ⟨op, ck, by simp [hm], hne, he⟩

/-- On a successful packet loop started with a counter below the threshold,
the packet positions after which an acknowledgement was awaited are exactly
the schedule the specification's flow-control wording prescribes. -/
theorem writePackets_awaits (dev : Dev) (thr : Nat) :
    ∀ (packets : List (Nat × List Nat)) (prn ndx cdev k : Nat)
      (evs : List Event) (ndx2 cdev2 : Nat),
      prn < thr →
      fuPxiDeviceWritePackets dev thr packets prn ndx cdev =
        (evs, Except.ok (ndx2, cdev2)) →
      awaitPositions evs k = specAwaitSchedule thr packets.length prn k := by
  intro packets
  induction packets with
  | nil =>
      intro prn ndx cdev k evs ndx2 cdev2 _ h
      simp only [fuPxiDeviceWritePackets, Prod.mk.injEq] at h
      obtain ⟨h1, _⟩ := h
      subst h1
      simp [awaitPositions, specAwaitSchedule]
  | cons p rest ih =>
      obtain ⟨pa, pd⟩ := p
      intro prn ndx cdev k evs ndx2 cdev2 hprn h
      simp only [fuPxiDeviceWritePackets] at h
      by_cases hb : prn + 1 ≥ thr ∨ rest = []
      · rw [if_pos hb] at h
        by_cases hop : (dev ndx).opcode ≠ CMD_FW_WRITE
        · rw [if_pos hop] at h
          simp only [Prod.mk.injEq] at h
          exact absurd h.2 (by simp)
        · rw [if_neg hop] at h
          rcases hcall : fuPxiDeviceWritePackets dev thr rest 0 (ndx + 1)
              (dev ndx).checksum with ⟨evs1, res1⟩
          rw [hcall] at h
          simp only [Prod.mk.injEq] at h
          obtain ⟨hevs, hres⟩ := h
          subst hevs
          have hb2 : prn + 1 = thr ∨ rest.length = 0 := by
            rcases hb with hb | hb
            · exact Or.inl (by omega)
            · exact Or.inr (by simp [hb])
          have ihs := ih 0 (ndx + 1) (dev ndx).checksum (k + 1) evs1 ndx2 cdev2
            (by omega) (by rw [hcall, hres])
          simp only [awaitPositions, List.length_cons, specAwaitSchedule,
            if_pos hb2, Nat.add_sub_cancel]
          rw [ihs]
      · rw [if_neg hb] at h
        push_neg at hb
        obtain ⟨hlt, hrest⟩ := hb
        rcases hcall : fuPxiDeviceWritePackets dev thr rest (prn + 1) ndx cdev
          with ⟨evs1, res1⟩
        rw [hcall] at h
        simp only [Prod.mk.injEq] at h
        obtain ⟨hevs, hres⟩ := h
        subst hevs
        have hb2 : ¬(prn + 1 = thr ∨ rest.length = 0) := by
          push_neg
          refine ⟨by omega, by simpa using hrest⟩
        have ihs := ih (prn + 1) ndx cdev (k + 1) evs1 ndx2 cdev2
          (by omega) (by rw [hcall, hres])
        simp only [awaitPositions, List.length_cons, specAwaitSchedule, if_neg hb2]
        rw [ihs]

/-- In any packet-loop trace, starting from a counter below the bound
`max thr 1`, no more than `max thr 1` packets are ever written between two
awaited acknowledgements. -/
theorem writePackets_runs (dev : Dev) (thr : Nat) :
    ∀ (packets : List (Nat × List Nat)) (prn ndx cdev : Nat),
      prn < max thr 1 →
      packetRunsOk (max thr 1) (fuPxiDeviceWritePackets dev thr packets prn ndx cdev).1
        prn = true := by
  intro packets
  induction packets with
  | nil =>
      intro prn ndx cdev _
      simp [fuPxiDeviceWritePackets, packetRunsOk]
  | cons p rest ih =>
      obtain ⟨pa, pd⟩ := p
      intro prn ndx cdev hprn
      simp only [fuPxiDeviceWritePackets]
      by_cases hb : prn + 1 ≥ thr ∨ rest = []
      · rw [if_pos hb]
        by_cases hop : (dev ndx).opcode ≠ CMD_FW_WRITE
        · rw [if_pos hop]
          simp only [packetRunsOk, Bool.and_eq_true, decide_eq_true_eq]
          exact ⟨by omega, trivial⟩
        · rw [if_neg hop]
          simp only [packetRunsOk, Bool.and_eq_true, decide_eq_true_eq]
          exact ⟨by omega, ih 0 (ndx + 1) (dev ndx).checksum (by omega)⟩
      · rw [if_neg hb]
        push_neg at hb
        obtain ⟨hlt, _⟩ := hb
        simp only [packetRunsOk, Bool.and_eq_true, decide_eq_true_eq]
        have hbound : prn + 1 < max thr 1 := by omega
        exact ⟨by omega, ih (prn + 1) ndx cdev hbound⟩

/-- A PRN threshold of zero drives the packet loop exactly as a threshold of
one does: the `prn >= self->prn_threshold` test fires after every packet in
both cases. -/
theorem writePackets_thr_zero_eq_one (dev : Dev) :
    ∀ (packets : List (Nat × List Nat)) (prn ndx cdev : Nat),
      fuPxiDeviceWritePackets dev 0 packets prn ndx cdev =
        fuPxiDeviceWritePackets dev 1 packets prn ndx cdev := by
  intro packets
  induction packets with
  | nil => intro prn ndx cdev; rfl
  | cons p rest ih =>
      obtain ⟨pa, pd⟩ := p
      intro prn ndx cdev
      simp only [fuPxiDeviceWritePackets]
      rw [if_pos (Or.inl (Nat.zero_le _)), if_pos (Or.inl (by omega))]
      by_cases hop : (dev ndx).opcode ≠ CMD_FW_WRITE
      · rw [if_pos hop, if_pos hop]
      · rw [if_neg hop, if_neg hop, ih]

/-- The packet loop reports no progress events. -/
theorem writePackets_progress (dev : Dev) (thr : Nat) :
    ∀ (packets : List (Nat × List Nat)) (prn ndx cdev : Nat),
      progressOf (fuPxiDeviceWritePackets dev thr packets prn ndx cdev).1 = [] := by
  intro packets
  induction packets with
  | nil => intro prn ndx cdev; simp [fuPxiDeviceWritePackets, progressOf]
  | cons p rest ih =>
      obtain ⟨pa, pd⟩ := p
      intro prn ndx cdev
      simp only [fuPxiDeviceWritePackets]
      by_cases hb : prn + 1 ≥ thr ∨ rest = []
      · rw [if_pos hb]
        by_cases hop : (dev ndx).opcode ≠ CMD_FW_WRITE
        · rw [if_pos hop]; simp [progressOf]
        · rw [if_neg hop]
          simp only [progressOf, List.filterMap_cons]
          simpa [progressOf] using ih 0 (ndx + 1) (dev ndx).checksum
      · rw [if_neg hb]
        simp only [progressOf, List.filterMap_cons]
        simpa [progressOf] using ih (prn + 1) ndx cdev

/-- Splitting a nonempty buffer yields at least one chunk. -/
theorem splitChunksAt_ne_nil (data : List Nat) (addr cap : Nat) (h : data ≠ []) :
    splitChunksAt data addr cap ≠ [] := by
  cases data with
  | nil => exact absurd rfl h
  | cons b bs => simp [splitChunksAt, splitChunksFuel]

/-- The two events of the object-create exchange carry no write
acknowledgement, so the last-acknowledgement checksum of a chunk trace is
that of its packet phase. -/
theorem lastWriteAckChecksum_skip_create (a l o : Nat) (t : List Event) :
    lastWriteAckChecksum (Event.objectCreate a l :: Event.createAck o :: t) =
      lastWriteAckChecksum t := rfl

/-- C1 (amended): during the transfer of every (nonempty) object, each
awaited acknowledgement notification must have opcode `CMD_FW_WRITE` (0x17);
the running-total checksum is validated only against the LAST awaited
notification of the object: on success every acknowledgement carried opcode
0x17, the accumulator becomes `(checksum_accum + checksum(object)) % 2 ^ 16`,
and the last acknowledgement reported exactly that total; conversely, when
all opcodes matched but the last acknowledgement's checksum differs from the
running total, the attempt aborts with `checksumMismatch`.  Intermediate
acknowledgements' checksums are read but never validated. -/
theorem c1_amended (st : OtaState) (dev : Dev) (ndx addr : Nat)
    (data : List Nat) (evs : List Event) (res : Except PxiErr (OtaState × Nat))
    (hdata : data ≠ [])
    (h : fuPxiDeviceWriteChunk st dev ndx addr data = (evs, res)) :
    (∀ st1 ndx2, res = Except.ok (st1, ndx2) →
      (∀ op ck, Event.writeAck op ck ∈ evs → op = CMD_FW_WRITE) ∧
      st1.checksum = (st.checksum + fuPxiDeviceCalculateChecksum data) % 65536 ∧
      lastWriteAckChecksum evs = some st1.checksum) ∧
    (∀ d, lastWriteAckChecksum evs = some d →
      (∀ op ck, Event.writeAck op ck ∈ evs → op = CMD_FW_WRITE) →
      d ≠ (st.checksum + fuPxiDeviceCalculateChecksum data) % 65536 →
      res = Except.error (PxiErr.checksumMismatch d
        ((st.checksum + fuPxiDeviceCalculateChecksum data) % 65536))) := by
  simp only [fuPxiDeviceWriteChunk] at h
  rcases hc : fuPxiDeviceFwObjectCreate dev ndx addr data.length with ⟨evsC, resC⟩
  rw [hc] at h
  simp only [fuPxiDeviceFwObjectCreate] at hc
  cases resC with
  | error e =>
      have hevsC : evsC = [Event.objectCreate addr data.length,
          Event.createAck (dev ndx).opcode] := by
        split at hc
        · exact (Prod.mk.injEq .. ▸ hc).1.symm ▸ rfl
        · simp only [Prod.mk.injEq] at hc
          exact absurd hc.2 (by simp)
      simp only [Prod.mk.injEq] at h
      obtain ⟨hevs, hres⟩ := h
      subst hevs
      constructor
      · intro st1 ndx2 hok
        rw [← hres] at hok
        exact absurd hok (by simp)
      · intro d hd _ _
        rw [hevsC] at hd
        simp [lastWriteAckChecksum] at hd
  | ok ndx1 =>
      have hevsC : evsC = [Event.objectCreate addr data.length,
          Event.createAck (dev ndx).opcode] := by
        split at hc
        · simp only [Prod.mk.injEq] at hc
          exact absurd hc.2 (by simp)
        · exact (Prod.mk.injEq .. ▸ hc).1.symm ▸ rfl
      subst hevsC
      dsimp only at h
      rcases hw : fuPxiDeviceWritePackets dev st.prn_threshold
          (splitChunksAt data addr st.mtu_size) 0 ndx1 0 with ⟨evs2, res2⟩
      rw [hw] at h
      cases res2 with
      | error e =>
          simp only [Prod.mk.injEq] at h
          obtain ⟨hevs, hres⟩ := h
          subst hevs
          constructor
          · intro st1 ndx2 hok
            rw [← hres] at hok
            exact absurd hok (by simp)
          · intro d _ hall _
            obtain ⟨op, ck, hm, hne, _⟩ :=
              writePackets_err dev st.prn_threshold _ 0 ndx1 0 evs2 e hw
            exact absurd (hall op ck (by simp [hm])) hne
      | ok pr =>
          obtain ⟨ndx2, cdev⟩ := pr
          dsimp only at h
          obtain ⟨hops, hcdev⟩ := writePackets_ok dev st.prn_threshold _ 0 ndx1 0
            evs2 ndx2 cdev hw
          have hlast : lastWriteAckChecksum evs2 ≠ none :=
            writePackets_last_ack dev st.prn_threshold _ 0 ndx1 0 evs2 ndx2 cdev
              (splitChunksAt_ne_nil data addr st.mtu_size hdata) hw
          rcases hl : lastWriteAckChecksum evs2 with _ | c
          · exact absurd hl hlast
          rw [hl] at hcdev
          simp only [Option.getD_some] at hcdev
          rw [hcdev] at h
          by_cases hcd : c ≠ (st.checksum + fuPxiDeviceCalculateChecksum data) % 65536
          · rw [if_pos hcd] at h
            simp only [Prod.mk.injEq] at h
            obtain ⟨hevs, hres⟩ := h
            subst hevs
            constructor
            · intro st1 ndx2' hok
              rw [← hres] at hok
              exact absurd hok (by simp)
            · intro d hd _ _
              rw [List.cons_append, List.cons_append, List.nil_append,
                lastWriteAckChecksum_skip_create, hl] at hd
              rw [Option.some.injEq] at hd
              rw [← hres, ← hd]
          · rw [if_neg hcd] at h
            push_neg at hcd
            simp only [Prod.mk.injEq] at h
            obtain ⟨hevs, hres⟩ := h
            subst hevs
            constructor
            · intro st1 ndx2' hok
              rw [← hres, Except.ok.injEq, Prod.mk.injEq] at hok
              obtain ⟨hst, _⟩ := hok
              refine ⟨?_, ?_, ?_⟩
              · intro op ck hm
                rcases List.mem_append.mp hm with hm | hm
                · simp at hm
                · exact hops op ck hm
              · rw [← hst]
              · rw [List.cons_append, List.cons_append, List.nil_append,
                  lastWriteAckChecksum_skip_create, hl, ← hst, hcd]
            · intro d hd _ hne
              rw [List.cons_append, List.cons_append, List.nil_append,
                lastWriteAckChecksum_skip_create, hl, Option.some.injEq] at hd
              rw [hd] at hcd
              exact absurd hcd hne

/-- C1 (counterexample): with mtu 4 and PRN threshold 2, transferring the
object 1..10 against a device whose intermediate acknowledgement reports the
garbage checksum 0x1234 (which differs from the claimed running total) still
succeeds: the intermediate acknowledgement's checksum is never validated, so
no `checksumMismatch` is raised, refuting the claim that EVERY awaited
acknowledgement's checksum must equal the running total. -/
theorem c1_counterexample :
    (fuPxiDeviceWriteChunk stA devGarbageMid 0 0 [1,2,3,4,5,6,7,8,9,10]).2 =
      Except.ok (⟨0, 0, 0, 55, 4096, 4, 2, 1⟩, 3) ∧
    Event.writeAck CMD_FW_WRITE 0x1234 ∈
      (fuPxiDeviceWriteChunk stA devGarbageMid 0 0 [1,2,3,4,5,6,7,8,9,10]).1 ∧
    (0x1234 : Nat) ≠
      (stA.checksum + fuPxiDeviceCalculateChecksum [1,2,3,4,5,6,7,8,9,10]) % 65536 := by
  decide

/-- C1 (witness): the amended theorem applied to the compliant ten-byte
transfer: the run succeeds, the accumulator lands on 55 and the last
acknowledgement reported exactly 55. -/
theorem c1_amended_witness :
    (⟨0, 0, 0, 55, 4096, 4, 2, 1⟩ : OtaState).checksum =
      (stA.checksum + fuPxiDeviceCalculateChecksum [1,2,3,4,5,6,7,8,9,10]) % 65536 ∧
    lastWriteAckChecksum
      (fuPxiDeviceWriteChunk stA devTenByte 0 0 [1,2,3,4,5,6,7,8,9,10]).1 =
      some (⟨0, 0, 0, 55, 4096, 4, 2, 1⟩ : OtaState).checksum := by
  have h := c1_amended stA devTenByte 0 0 [1,2,3,4,5,6,7,8,9,10]
    (fuPxiDeviceWriteChunk stA devTenByte 0 0 [1,2,3,4,5,6,7,8,9,10]).1
    (Except.ok (⟨0, 0, 0, 55, 4096, 4, 2, 1⟩, 3)) (by decide) (by decide)
  obtain ⟨_, h2, h3⟩ := h.1 ⟨0, 0, 0, 55, 4096, 4, 2, 1⟩ 3 rfl
  exact ⟨h2, h3⟩

/-- The object-create exchange always logs exactly its request and the
acknowledgement opcode. -/
theorem fwObjectCreate_fst (dev : Dev) (ndx addr len : Nat) :
    (fuPxiDeviceFwObjectCreate dev ndx addr len).1 =
      [Event.objectCreate addr len, Event.createAck (dev ndx).opcode] := by
  simp only [fuPxiDeviceFwObjectCreate]
  split <;> rfl

/-- Every chunk write, whatever its outcome, logs the object-create command
for its address and length. -/
theorem writeChunk_create_mem (st : OtaState) (dev : Dev) (ndx addr : Nat)
    (data : List Nat) (evs : List Event) (r : Except PxiErr (OtaState × Nat))
    (h : fuPxiDeviceWriteChunk st dev ndx addr data = (evs, r)) :
    Event.objectCreate addr data.length ∈ evs := by
  simp only [fuPxiDeviceWriteChunk] at h
  rcases hc : fuPxiDeviceFwObjectCreate dev ndx addr data.length with ⟨evsC, resC⟩
  have hfst : evsC = [Event.objectCreate addr data.length,
      Event.createAck (dev ndx).opcode] := by
    rw [← fwObjectCreate_fst dev ndx addr data.length, hc]
  rw [hc] at h
  cases resC with
  | error e =>
      dsimp only at h
      simp only [Prod.mk.injEq] at h
      rw [← h.1, hfst]
      simp
  | ok ndx1 =>
      dsimp only at h
      rcases hw : fuPxiDeviceWritePackets dev st.prn_threshold
          (splitChunksAt data addr st.mtu_size) 0 ndx1 0 with ⟨evs2, res2⟩
      rw [hw] at h
      cases res2 with
      | error e =>
          dsimp only at h
          simp only [Prod.mk.injEq] at h
          rw [← h.1, hfst]
          simp
      | ok pr =>
          obtain ⟨ndx2, cdev⟩ := pr
          dsimp only at h
          split at h <;>
          · simp only [Prod.mk.injEq] at h
            rw [← h.1, hfst]
            simp

/-- A successful object loop logs an object-create command for every chunk
it was given. -/
theorem writeChunksLoop_creates (dev : Dev) (total : Nat) :
    ∀ (chunks : List (Nat × List Nat)) (i : Nat) (st : OtaState) (ndx : Nat)
      (evs : List Event) (r : OtaState × Nat),
      fuPxiDeviceWriteChunksLoop dev total chunks i st ndx = (evs, Except.ok r) →
      ∀ c ∈ chunks, Event.objectCreate c.1 c.2.length ∈ evs := by
  intro chunks
  induction chunks with
  | nil => intro i st ndx evs r _ c hc; exact absurd hc (by simp)
  | cons p rest ih =>
      obtain ⟨addr, data⟩ := p
      intro i st ndx evs r h c hc
      simp only [fuPxiDeviceWriteChunksLoop] at h
      rcases hwc : fuPxiDeviceWriteChunk st dev ndx addr data with ⟨evs1, res1⟩
      rw [hwc] at h
      cases res1 with
      | error e =>
          dsimp only at h
          simp only [Prod.mk.injEq] at h
          exact absurd h.2 (by simp)
      | ok pr =>
          obtain ⟨st1, ndx1⟩ := pr
          dsimp only at h
          rcases hloop : fuPxiDeviceWriteChunksLoop dev total rest (i + 1) st1 ndx1
            with ⟨evs2, res2⟩
          rw [hloop] at h
          simp only [Prod.mk.injEq] at h
          obtain ⟨hevs, hres⟩ := h
          subst hevs
          rcases List.mem_cons.mp hc with hc | hc
          · subst hc
            exact List.mem_append.mpr (Or.inl (writeChunk_create_mem st dev ndx
              addr data evs1 (Except.ok (st1, ndx1)) hwc))
          · have := ih (i + 1) st1 ndx1 evs2 r (by rw [hloop, hres]) c hc
            exact List.mem_append.mpr (Or.inr (List.mem_cons.mpr (Or.inr this)))

/-- C2 (counterexample): the device reports resume offset 2 for a one-object
image (the single byte 7); the update attempt nevertheless SUCCEEDS and the
trace contains the object-create command, i.e. object transfer proceeds,
refuting the claim that an out-of-range resume offset is fatal
(`OffsetOutOfRange`) with no transfer. -/
theorem c2_counterexample :
    decodeInitNew initResOffset2 = some ⟨0, 0, 2, 0, 4096, 4, 2, 1⟩ ∧
    (splitChunks [7] OBJECT_SIZE_MAX).length = 1 ∧
    (fuPxiDeviceWriteFirmware [7] [49] initResOffset2 devByte7).2 =
      Except.ok ⟨0, 0, 0, 7, 4096, 4, 2, 1⟩ ∧
    Event.objectCreate 0 1 ∈
      (fuPxiDeviceWriteFirmware [7] [49] initResOffset2 devByte7).1 := by
  decide

/-- C2 (amended): when the negotiated resume offset strictly exceeds the
image's object count, the resume check fails with the offset-out-of-range
error, but the failure is absorbed rather than fatal: the engine resets
`resume_offset` to 0 and `checksum_accum` to 0 and the update attempt
proceeds to transfer all objects from index 0. -/
theorem c2_amended (st : OtaState) (fw : List Nat)
    (h : (splitChunks fw OBJECT_SIZE_MAX).length < st.offset) :
    fuPxiDeviceCheckSupportResume st fw =
      Except.error (PxiErr.resumeOffsetInvalid st.offset
        (splitChunks fw OBJECT_SIZE_MAX).length) ∧
    resumeAdjust st fw = { st with offset := 0, checksum := 0 } := by
  have h1 : fuPxiDeviceCheckSupportResume st fw =
      Except.error (PxiErr.resumeOffsetInvalid st.offset
        (splitChunks fw OBJECT_SIZE_MAX).length) := by
    simp only [fuPxiDeviceCheckSupportResume]
    rw [if_pos h]
  refine ⟨h1, ?_⟩
  simp only [resumeAdjust, h1]

/-- C2 (witness): the amended theorem at the concrete out-of-range session
(offset 2, one-object image of the byte 7). -/
theorem c2_amended_witness :
    fuPxiDeviceCheckSupportResume ⟨0, 0, 2, 0, 4096, 4, 2, 1⟩ [7] =
      Except.error (PxiErr.resumeOffsetInvalid 2 1) ∧
    resumeAdjust ⟨0, 0, 2, 0, 4096, 4, 2, 1⟩ [7] = ⟨0, 0, 0, 0, 4096, 4, 2, 1⟩ := by
  have h := c2_amended ⟨0, 0, 2, 0, 4096, 4, 2, 1⟩ [7] (by decide)
  exact ⟨h.1, h.2⟩

/-- C3: for every image and every valid resume offset, if the
device-reported checksum differs from the locally recomputed checksum over
the objects before the offset, the attempt does not abort: the resume check
fails with the checksum-difference error, the engine resets `resume_offset`
to 0 and `checksum_accum` to 0, and any completed update attempt from this
negotiation transferred (created) every object of the image from index 0. -/
theorem c3_resume_mismatch_restarts (st : OtaState) (fw : List Nat)
    (hoff : st.offset ≤ (splitChunks fw OBJECT_SIZE_MAX).length)
    (hck : st.checksum ≠
      resumeChecksumTmp (splitChunks fw OBJECT_SIZE_MAX) st.offset) :
    fuPxiDeviceCheckSupportResume st fw =
      Except.error (PxiErr.resumeChecksumDiff st.checksum
        (resumeChecksumTmp (splitChunks fw OBJECT_SIZE_MAX) st.offset)) ∧
    resumeAdjust st fw = { st with offset := 0, checksum := 0 } ∧
    (∀ (version initRes : List Nat) (dev : Dev) (evs : List Event)
       (st1 : OtaState),
      decodeInitNew initRes = some st →
      fuPxiDeviceWriteFirmware fw version initRes dev = (evs, Except.ok st1) →
      ∀ c ∈ splitChunks fw OBJECT_SIZE_MAX,
        Event.objectCreate c.1 c.2.length ∈ evs) := by
  have h1 : fuPxiDeviceCheckSupportResume st fw =
      Except.error (PxiErr.resumeChecksumDiff st.checksum
        (resumeChecksumTmp (splitChunks fw OBJECT_SIZE_MAX) st.offset)) := by
    simp only [fuPxiDeviceCheckSupportResume]
    rw [if_neg (by omega), if_pos hck]
  have h2 : resumeAdjust st fw = { st with offset := 0, checksum := 0 } := by
    simp only [resumeAdjust, h1]
  refine ⟨h1, h2, ?_⟩
  intro version initRes dev evs st1 hdec h
  simp only [fuPxiDeviceWriteFirmware, fuPxiDeviceFwOtaInitNew, hdec] at h
  by_cases hscr : st.spec_check_result ≠ OTA_SPEC_CHECK_OK
  · rw [if_pos hscr] at h
    dsimp only at h
    simp only [Prod.mk.injEq] at h
    exact absurd h.2 (by simp)
  · rw [if_neg hscr] at h
    dsimp only at h
    rw [h2] at h
    dsimp only at h
    rw [List.drop_zero] at h
    rcases hloop : fuPxiDeviceWriteChunksLoop dev
        (splitChunks fw OBJECT_SIZE_MAX).length (splitChunks fw OBJECT_SIZE_MAX) 0
        { st with offset := 0, checksum := 0 } 0 with ⟨evs2, res2⟩
    rw [hloop] at h
    cases res2 with
    | error e =>
        dsimp only at h
        simp only [Prod.mk.injEq] at h
        exact absurd h.2 (by simp)
    | ok pr =>
        obtain ⟨st2, ndx2⟩ := pr
        dsimp only at h
        rcases hup : fuPxiDeviceFwUpgrade dev ndx2 fw version with ⟨evs3, res3⟩
        rw [hup] at h
        cases res3 with
        | error e =>
            dsimp only at h
            simp only [Prod.mk.injEq] at h
            exact absurd h.2 (by simp)
        | ok ndx3 =>
            dsimp only at h
            simp only [Prod.mk.injEq] at h
            obtain ⟨hevs, _⟩ := h
            subst hevs
            intro c hc
            have := writeChunksLoop_creates dev
              (splitChunks fw OBJECT_SIZE_MAX).length (splitChunks fw OBJECT_SIZE_MAX)
              0 { st with offset := 0, checksum := 0 } 0 evs2 (st2, ndx2) hloop c hc
            simp only [List.mem_cons, List.mem_append]
            tauto

/-- C3 (witness): a stale one-object session (offset 1, stored checksum 3,
real checksum 7) restarts from zero and the completed attempt created the
image's single object. -/
theorem c3_witness :
    fuPxiDeviceCheckSupportResume ⟨0, 0, 1, 3, 4096, 4, 2, 1⟩ [7] =
      Except.error (PxiErr.resumeChecksumDiff 3 7) ∧
    resumeAdjust ⟨0, 0, 1, 3, 4096, 4, 2, 1⟩ [7] = ⟨0, 0, 0, 0, 4096, 4, 2, 1⟩ ∧
    Event.objectCreate 0 1 ∈
      (fuPxiDeviceWriteFirmware [7] [49] initResStale devByte7).1 := by
  have h := c3_resume_mismatch_restarts ⟨0, 0, 1, 3, 4096, 4, 2, 1⟩ [7]
    (by decide) (by decide)
  refine ⟨h.1, h.2.1, ?_⟩
  exact h.2.2 [49] initResStale devByte7
    (fuPxiDeviceWriteFirmware [7] [49] initResStale devByte7).1
    ⟨0, 0, 0, 7, 4096, 4, 2, 1⟩ (by decide) (by decide) (0, [7]) (by decide)

/-- With threshold one the spec's await schedule is every packet position. -/
theorem specAwaitSchedule_one (n : Nat) : ∀ k,
    specAwaitSchedule 1 n 0 k = List.range' k n := by
  induction n with
  | zero => intro k; simp [specAwaitSchedule]
  | succ m ih =>
      intro k
      simp only [specAwaitSchedule, ih, List.range'_succ]
      simp

/-- C4: for every session with `prn_threshold >= 1` and every successful
object transfer, a notification is awaited exactly at the positions the
specification's flow-control wording prescribes (counter reaches the
threshold or last packet, whichever first, counter reset after each await);
in particular with threshold 1 an acknowledgement follows every packet;
and in the concrete ten-byte scenario (mtu 4, threshold 2) the packets are
[1,2,3,4], [5,6,7,8], [9,10], acknowledgements are awaited after the 2nd
and 3rd packets, and the final checksum is 55. -/
theorem c4_flow_control :
    (∀ (st : OtaState) (dev : Dev) (ndx addr : Nat) (data : List Nat)
       (evs : List Event) (r : OtaState × Nat),
      1 ≤ st.prn_threshold →
      fuPxiDeviceWriteChunk st dev ndx addr data = (evs, Except.ok r) →
      awaitPositions evs 0 =
        specAwaits st.prn_threshold (splitChunksAt data addr st.mtu_size).length ∧
      (st.prn_threshold = 1 →
        awaitPositions evs 0 =
          List.range (splitChunksAt data addr st.mtu_size).length)) ∧
    (packetsOf (fuPxiDeviceWriteChunk stA devTenByte 0 0
        [1,2,3,4,5,6,7,8,9,10]).1 = [[1,2,3,4],[5,6,7,8],[9,10]] ∧
     awaitPositions (fuPxiDeviceWriteChunk stA devTenByte 0 0
        [1,2,3,4,5,6,7,8,9,10]).1 0 = [1, 2] ∧
     (fuPxiDeviceWriteChunk stA devTenByte 0 0 [1,2,3,4,5,6,7,8,9,10]).2 =
       Except.ok (⟨0, 0, 0, 55, 4096, 4, 2, 1⟩, 3)) := by
  constructor
  · intro st dev ndx addr data evs r hthr h
    have hmain : awaitPositions evs 0 =
        specAwaits st.prn_threshold (splitChunksAt data addr st.mtu_size).length := by
      simp only [fuPxiDeviceWriteChunk] at h
      rcases hc : fuPxiDeviceFwObjectCreate dev ndx addr data.length with ⟨evsC, resC⟩
      have hfst : evsC = [Event.objectCreate addr data.length,
          Event.createAck (dev ndx).opcode] := by
        rw [← fwObjectCreate_fst dev ndx addr data.length, hc]
      rw [hc] at h
      cases resC with
      | error e =>
          dsimp only at h
          simp only [Prod.mk.injEq] at h
          exact absurd h.2 (by simp)
      | ok ndx1 =>
          dsimp only at h
          rcases hw : fuPxiDeviceWritePackets dev st.prn_threshold
              (splitChunksAt data addr st.mtu_size) 0 ndx1 0 with ⟨evs2, res2⟩
          rw [hw] at h
          cases res2 with
          | error e =>
              dsimp only at h
              simp only [Prod.mk.injEq] at h
              exact absurd h.2 (by simp)
          | ok pr =>
              obtain ⟨ndx2, cdev⟩ := pr
              dsimp only at h
              split at h
              · simp only [Prod.mk.injEq] at h
                exact absurd h.2 (by simp)
              · simp only [Prod.mk.injEq] at h
                obtain ⟨hevs, _⟩ := h
                subst hevs
                rw [hfst]
                have := writePackets_awaits dev st.prn_threshold
                  (splitChunksAt data addr st.mtu_size) 0 ndx1 0 0 evs2 ndx2 cdev
                  (by omega) hw
                simpa [awaitPositions, specAwaits] using this
    refine ⟨hmain, ?_⟩
    intro h1
    rw [hmain, h1, specAwaits, specAwaitSchedule_one, List.range_eq_range']
  · exact ⟨by decide, by decide, by decide⟩

/-- C4 (witness): the flow-control theorem applied to the compliant
ten-byte scenario run. -/
theorem c4_witness :
    awaitPositions (fuPxiDeviceWriteChunk stA devTenByte 0 0
      [1,2,3,4,5,6,7,8,9,10]).1 0 =
      specAwaits stA.prn_threshold
        (splitChunksAt [1,2,3,4,5,6,7,8,9,10] 0 stA.mtu_size).length :=
  (c4_flow_control.1 stA devTenByte 0 0 [1,2,3,4,5,6,7,8,9,10]
    (fuPxiDeviceWriteChunk stA devTenByte 0 0 [1,2,3,4,5,6,7,8,9,10]).1
    (⟨0, 0, 0, 55, 4096, 4, 2, 1⟩, 3) (by decide) (by decide)).1

/-- C5: for every device response to Init-New that decodes to a spec-check
verdict other than `OTA_SPEC_CHECK_OK`, negotiation fails with
`specCheckFailed` carrying the device's verdict verbatim, and the Transfer
Engine never runs: the attempt's trace contains no object-create command
and no packet write. -/
theorem c5_spec_check_gate (fw version initRes : List Nat) (dev : Dev)
    (st : OtaState) (hdec : decodeInitNew initRes = some st)
    (hscr : st.spec_check_result ≠ OTA_SPEC_CHECK_OK) :
    (fuPxiDeviceWriteFirmware fw version initRes dev).2 =
      Except.error (PxiErr.specCheckFailed st.spec_check_result) ∧
    ∀ e ∈ (fuPxiDeviceWriteFirmware fw version initRes dev).1,
      isTransferEvent e = false := by
  simp only [fuPxiDeviceWriteFirmware, fuPxiDeviceFwOtaInitNew, hdec]
  rw [if_pos hscr]
  dsimp only
  refine ⟨rfl, ?_⟩
  intro e he
  simp only [List.mem_cons, List.not_mem_nil, or_false] at he
  rcases he with rfl | rfl <;> rfl

/-- C5 (witness): the gate theorem at the concrete `OTA_PROCESS_ILLEGAL`
response: negotiation fails with the verdict surfaced and the Init-New
request itself is not a transfer event. -/
theorem c5_witness :
    (fuPxiDeviceWriteFirmware [7] [49] initResIllegal devByte7).2 =
      Except.error (PxiErr.specCheckFailed OTA_PROCESS_ILLEGAL) ∧
    isTransferEvent (Event.initNewReq (fuPxiDeviceFwOtaInitNewReq 1)) = false := by
  have h := c5_spec_check_gate [7] [49] initResIllegal devByte7
    ⟨0, 0, 0, 0, 4096, 4, 2, 3⟩ (by decide) (by decide)
  exact ⟨h.1, h.2 _ (by decide)⟩

/-- Whatever the device's Init-New response, the negotiation step logs
exactly the Init-New request it sent. -/
theorem fwOtaInitNew_fst (bufsz : Nat) (res : List Nat) :
    (fuPxiDeviceFwOtaInitNew bufsz res).1 =
      [Event.initNewReq (fuPxiDeviceFwOtaInitNewReq bufsz)] := by
  simp only [fuPxiDeviceFwOtaInitNew]
  cases hd : decodeInitNew res with
  | none => rfl
  | some st =>
      dsimp only
      split <;> rfl

/-- C7 (counterexample): at total length 100 and firmware version "1.2.3"
(bytes 49 46 50 46 51), the request the spec's wording describes — with the
version tag zero-padded into the ten-byte field — differs from the request
the code builds, whose ten version bytes are always zero. -/
theorem c7_counterexample :
    initNewReqPerSpec 100 [49, 46, 50, 46, 51] ≠ fuPxiDeviceFwOtaInitNewReq 100 := by
  decide

/-- C7 (amended): the Init-New request carries, after the report identifier
(0x07) and opcode (0x27), the image's total byte length as u32
little-endian, the OTA target selector byte 0, and then a fixed-width
ten-byte field that is always all zeros: the firmware's version tag is NOT
written into it (the version is only sent later, in the upgrade command);
and every update attempt's trace contains exactly this request. -/
theorem c7_amended :
    (∀ bufsz : Nat,
      (fuPxiDeviceFwOtaInitNewReq bufsz).length = 17 ∧
      read8 (fuPxiDeviceFwOtaInitNewReq bufsz) 0 = some FEATURE_REPORT_ID ∧
      read8 (fuPxiDeviceFwOtaInitNewReq bufsz) 1 = some CMD_FW_OTA_INIT_NEW ∧
      read32 (fuPxiDeviceFwOtaInitNewReq bufsz) 2 = some (bufsz % 4294967296) ∧
      read8 (fuPxiDeviceFwOtaInitNewReq bufsz) 6 = some 0 ∧
      (fuPxiDeviceFwOtaInitNewReq bufsz).drop 7 = List.replicate 10 0) ∧
    (∀ (fw version initRes : List Nat) (dev : Dev),
      Event.initNewReq (fuPxiDeviceFwOtaInitNewReq fw.length) ∈
        (fuPxiDeviceWriteFirmware fw version initRes dev).1) := by
  constructor
  · intro bufsz
    refine ⟨by simp [fuPxiDeviceFwOtaInitNewReq, u32le], rfl, rfl, ?_, rfl, rfl⟩
    simp only [fuPxiDeviceFwOtaInitNewReq, u32le, read32, List.cons_append,
      List.nil_append, List.get?, Option.bind_eq_bind, Option.some_bind,
      Option.pure_def, Option.some.injEq]
    omega
  · intro fw version initRes dev
    rcases hin : fuPxiDeviceFwOtaInitNew fw.length initRes with ⟨evs1, res1⟩
    have h1 : evs1 = [Event.initNewReq (fuPxiDeviceFwOtaInitNewReq fw.length)] := by
      rw [← fwOtaInitNew_fst fw.length initRes, hin]
    simp only [fuPxiDeviceWriteFirmware]
    rw [hin]
    cases res1 with
    | error e => dsimp only; simp [h1]
    | ok st0 =>
        dsimp only
        rcases hloop : fuPxiDeviceWriteChunksLoop dev
            (splitChunks fw OBJECT_SIZE_MAX).length
            ((splitChunks fw OBJECT_SIZE_MAX).drop (resumeAdjust st0 fw).offset)
            (resumeAdjust st0 fw).offset (resumeAdjust st0 fw) 0 with ⟨evs2, res2⟩
        cases res2 with
        | error e => dsimp only; simp [h1]
        | ok pr =>
            obtain ⟨st1, ndx1⟩ := pr
            dsimp only
            rcases hup : fuPxiDeviceFwUpgrade dev ndx1 fw version with ⟨evs3, res3⟩
            cases res3 with
            | error e => dsimp only; simp [h1]
            | ok ndx2 => dsimp only; simp [h1]

/-- A chunk write logs no progress events: progress is only reported by the
object loop of `fu_pxi_device_write_firmware`. -/
theorem writeChunk_progress (st : OtaState) (dev : Dev) (ndx addr : Nat)
    (data : List Nat) (evs : List Event) (r : Except PxiErr (OtaState × Nat))
    (h : fuPxiDeviceWriteChunk st dev ndx addr data = (evs, r)) :
    progressOf evs = [] := by
  simp only [fuPxiDeviceWriteChunk] at h
  rcases hc : fuPxiDeviceFwObjectCreate dev ndx addr data.length with ⟨evsC, resC⟩
  have hfst : evsC = [Event.objectCreate addr data.length,
      Event.createAck (dev ndx).opcode] := by
    rw [← fwObjectCreate_fst dev ndx addr data.length, hc]
  rw [hc] at h
  cases resC with
  | error e =>
      dsimp only at h
      simp only [Prod.mk.injEq] at h
      rw [← h.1, hfst]
      rfl
  | ok ndx1 =>
      dsimp only at h
      rcases hw : fuPxiDeviceWritePackets dev st.prn_threshold
          (splitChunksAt data addr st.mtu_size) 0 ndx1 0 with ⟨evs2, res2⟩
      rw [hw] at h
      have hp2 : progressOf evs2 = [] := by
        have := writePackets_progress dev st.prn_threshold
          (splitChunksAt data addr st.mtu_size) 0 ndx1 0
        rw [hw] at this
        exact this
      cases res2 with
      | error e =>
          dsimp only at h
          simp only [Prod.mk.injEq] at h
          rw [← h.1, hfst]
          simpa [progressOf] using hp2
      | ok pr =>
          obtain ⟨ndx2, cdev⟩ := pr
          dsimp only at h
          split at h <;>
          · simp only [Prod.mk.injEq] at h
            rw [← h.1, hfst]
            simpa [progressOf] using hp2

/-- A successful chunk write only folds the object's checksum into the
16-bit accumulator; every other session field is unchanged. -/
theorem writeChunk_ok_state (st : OtaState) (dev : Dev) (ndx addr : Nat)
    (data : List Nat) (evs : List Event) (st1 : OtaState) (ndx1 : Nat)
    (h : fuPxiDeviceWriteChunk st dev ndx addr data = (evs, Except.ok (st1, ndx1))) :
    st1 = { st with
      checksum := (st.checksum + fuPxiDeviceCalculateChecksum data) % 65536 } := by
  simp only [fuPxiDeviceWriteChunk] at h
  rcases hc : fuPxiDeviceFwObjectCreate dev ndx addr data.length with ⟨evsC, resC⟩
  rw [hc] at h
  cases resC with
  | error e =>
      dsimp only at h
      simp only [Prod.mk.injEq] at h
      exact absurd h.2 (by simp)
  | ok ndxa =>
      dsimp only at h
      rcases hw : fuPxiDeviceWritePackets dev st.prn_threshold
          (splitChunksAt data addr st.mtu_size) 0 ndxa 0 with ⟨evs2, res2⟩
      rw [hw] at h
      cases res2 with
      | error e =>
          dsimp only at h
          simp only [Prod.mk.injEq] at h
          exact absurd h.2 (by simp)
      | ok pr =>
          obtain ⟨ndxb, cdev⟩ := pr
          dsimp only at h
          split at h
          · simp only [Prod.mk.injEq] at h
            exact absurd h.2 (by simp)
          · simp only [Prod.mk.injEq, Except.ok.injEq] at h
            exact h.2.1.symm

/-- C8 (counterexample): a fresh one-object transfer that completes
successfully reports progress `(0, 1)` after its only object is
acknowledged — the absolute object index, not the count `(1, 1)` of
objects completed, refuting the claim's reading of `objects_completed`. -/
theorem c8_counterexample :
    (fuPxiDeviceWriteFirmware [7] [49] initResFresh devByte7).2 =
      Except.ok ⟨0, 0, 0, 7, 4096, 4, 2, 1⟩ ∧
    Event.progress 0 1 ∈ (fuPxiDeviceWriteFirmware [7] [49] initResFresh devByte7).1 ∧
    Event.progress 1 1 ∉ (fuPxiDeviceWriteFirmware [7] [49] initResFresh devByte7).1 := by
  decide

/-- C8 (amended): after each object is acknowledged the checksum
accumulator holds the verified running total (on completion of the loop it
equals the 16-bit wrapping accumulation of all per-object checksums), and
progress is reported as `(i, objects_total)` where `i` is the absolute
0-based index of the object just written — one less than the number of
objects completed when the attempt starts from offset 0. -/
theorem c8_amended (dev : Dev) (total : Nat) :
    ∀ (chunks : List (Nat × List Nat)) (i : Nat) (st : OtaState) (ndx : Nat)
      (evs : List Event) (st1 : OtaState) (ndx1 : Nat),
      fuPxiDeviceWriteChunksLoop dev total chunks i st ndx =
        (evs, Except.ok (st1, ndx1)) →
      progressOf evs = (List.range' i chunks.length).map (fun j => (j, total)) ∧
      st1.checksum = runningChecksum st.checksum chunks := by
  intro chunks
  induction chunks with
  | nil =>
      intro i st ndx evs st1 ndx1 h
      simp only [fuPxiDeviceWriteChunksLoop, Prod.mk.injEq, Except.ok.injEq] at h
      obtain ⟨h1, h2, _⟩ := h
      subst h1
      rw [← h2]
      exact ⟨rfl, rfl⟩
  | cons p rest ih =>
      obtain ⟨addr, data⟩ := p
      intro i st ndx evs st1 ndx1 h
      simp only [fuPxiDeviceWriteChunksLoop] at h
      rcases hwc : fuPxiDeviceWriteChunk st dev ndx addr data with ⟨evs1, res1⟩
      rw [hwc] at h
      cases res1 with
      | error e =>
          dsimp only at h
          simp only [Prod.mk.injEq] at h
          exact absurd h.2 (by simp)
      | ok pr =>
          obtain ⟨st2, ndx2⟩ := pr
          dsimp only at h
          rcases hloop : fuPxiDeviceWriteChunksLoop dev total rest (i + 1) st2 ndx2
            with ⟨evs2, res2⟩
          rw [hloop] at h
          simp only [Prod.mk.injEq] at h
          obtain ⟨hevs, hres⟩ := h
          subst hevs
          obtain ⟨ihp, ihc⟩ := ih (i + 1) st2 ndx2 evs2 st1 ndx1 (by rw [hloop, hres])
          have hst2 := writeChunk_ok_state st dev ndx addr data evs1 st2 ndx2 hwc
          constructor
          · rw [progressOf, List.filterMap_append]
            have h1 : progressOf evs1 = [] :=
              writeChunk_progress st dev ndx addr data evs1 (Except.ok (st2, ndx2)) hwc
            rw [progressOf] at h1 ihp
            rw [h1, List.filterMap_cons, List.nil_append]
            dsimp only
            rw [ihp, List.length_cons, List.range'_succ, List.map_cons]
          · rw [ihc, hst2, runningChecksum, runningChecksum, List.foldl_cons]

/-- C8 (witness): the amended progress law at a concrete one-object loop:
the only progress event is `(0, 1)` and the accumulator lands on 7. -/
theorem c8_amended_witness :
    progressOf (fuPxiDeviceWriteChunksLoop devByte7 1 [(0, [7])] 0
        ⟨0, 0, 0, 0, 4096, 4, 2, 1⟩ 0).1 =
      (List.range' 0 1).map (fun j => (j, 1)) ∧
    (⟨0, 0, 0, 7, 4096, 4, 2, 1⟩ : OtaState).checksum =
      runningChecksum (⟨0, 0, 0, 0, 4096, 4, 2, 1⟩ : OtaState).checksum [(0, [7])] := by
  exact c8_amended devByte7 1 [(0, [7])] 0 ⟨0, 0, 0, 0, 4096, 4, 2, 1⟩ 0
    (fuPxiDeviceWriteChunksLoop devByte7 1 [(0, [7])] 0
      ⟨0, 0, 0, 0, 4096, 4, 2, 1⟩ 0).1
    ⟨0, 0, 0, 7, 4096, 4, 2, 1⟩ 2 (by decide)

/-- Concatenating the chunks of a greedy split reproduces the buffer. -/
theorem splitChunksFuel_join (cap : Nat) (hcap : 1 ≤ cap) :
    ∀ (fuel addr : Nat) (bytes : List Nat), bytes.length ≤ fuel →
      ((splitChunksFuel cap fuel addr bytes).map Prod.snd).flatten = bytes := by
  intro fuel
  induction fuel with
  | zero =>
      intro addr bytes h
      have hb : bytes = [] := List.length_eq_zero.mp (Nat.le_zero.mp h)
      subst hb
      simp [splitChunksFuel]
  | succ m ih =>
      intro addr bytes h
      cases bytes with
      | nil => simp [splitChunksFuel]
      | cons b bs =>
          simp only [splitChunksFuel, List.map_cons, List.flatten_cons]
          rw [ih (addr + cap) ((b :: bs).drop cap)
            (by simp only [List.length_drop, List.length_cons] at h ⊢; omega)]
          exact List.take_append_drop cap (b :: bs)

/-- Reducing each summand mod `2 ^ 16` does not change a sum mod `2 ^ 16`. -/
theorem sum_map_mod65536 : ∀ xs : List Nat,
    (xs.map (fun x => x % 65536)).sum % 65536 = xs.sum % 65536 := by
  intro xs
  induction xs with
  | nil => rfl
  | cons x xs ih =>
      simp only [List.map_cons, List.sum_cons]
      omega

/-- The 16-bit wrapping accumulation of per-buffer checksums computes the
checksum of the concatenation — the incremental property resume relies on. -/
theorem checksum_fold_eq (ls : List (List Nat)) :
    (ls.map fuPxiDeviceCalculateChecksum).foldl (fun a b => (a + b) % 65536) 0 =
      fuPxiDeviceCalculateChecksum ls.flatten := by
  have hfun : fuPxiDeviceCalculateChecksum = fun l : List Nat => l.sum % 65536 :=
    funext checksum_eq_sum_mod
  rw [foldl_mod_add _ 0 (by omega), Nat.zero_add, hfun]
  have hmm : ls.map (fun l : List Nat => l.sum % 65536) =
      (ls.map List.sum).map (fun x => x % 65536) := by
    rw [List.map_map]
    rfl
  rw [hmm, sum_map_mod65536, ← List.sum_flatten]

/-- The checksum `fu_pxi_device_check_support_resume` recomputes over all
objects of an image is the whole-image checksum. -/
theorem resumeChecksumTmp_splitChunks (fw : List Nat) :
    resumeChecksumTmp (splitChunks fw OBJECT_SIZE_MAX)
      (splitChunks fw OBJECT_SIZE_MAX).length =
      fuPxiDeviceCalculateChecksum fw := by
  rw [resumeChecksumTmp, List.take_length]
  have hmm : (splitChunks fw OBJECT_SIZE_MAX).map
        (fun c => fuPxiDeviceCalculateChecksum c.2) =
      ((splitChunks fw OBJECT_SIZE_MAX).map Prod.snd).map
        fuPxiDeviceCalculateChecksum := by
    rw [List.map_map]
    rfl
  rw [hmm, checksum_fold_eq]
  rw [splitChunks, splitChunksAt,
    splitChunksFuel_join OBJECT_SIZE_MAX (by simp [OBJECT_SIZE_MAX])
      fw.length 0 fw le_rfl]

/-- C9: for every image whose negotiated resume offset equals the object
count and whose device-reported checksum equals the full-image checksum,
the resume check passes, and the update attempt performs zero object-create
commands and zero packet writes: its trace has no transfer events and goes
directly to the upgrade command. -/
theorem c9_resume_complete (st : OtaState) (fw : List Nat)
    (hoff : st.offset = (splitChunks fw OBJECT_SIZE_MAX).length)
    (hck : st.checksum = fuPxiDeviceCalculateChecksum fw)
    (hscr : st.spec_check_result = OTA_SPEC_CHECK_OK) :
    fuPxiDeviceCheckSupportResume st fw = Except.ok () ∧
    (∀ (version initRes : List Nat) (dev : Dev),
      decodeInitNew initRes = some st →
      version.length ≤ 10 →
      (∀ e ∈ (fuPxiDeviceWriteFirmware fw version initRes dev).1,
        isTransferEvent e = false) ∧
      Event.upgradeReq (fuPxiDeviceFwUpgradeReq fw version) ∈
        (fuPxiDeviceWriteFirmware fw version initRes dev).1) := by
  have h1 : fuPxiDeviceCheckSupportResume st fw = Except.ok () := by
    simp only [fuPxiDeviceCheckSupportResume]
    rw [if_neg (by omega), if_neg ?hcond]
    case hcond =>
      intro hne
      exact hne (by rw [hck, hoff, resumeChecksumTmp_splitChunks])
  have hadj : resumeAdjust st fw = st := by
    simp only [resumeAdjust, h1]
  refine ⟨h1, ?_⟩
  intro version initRes dev hdec hver
  simp only [fuPxiDeviceWriteFirmware, fuPxiDeviceFwOtaInitNew, hdec]
  rw [if_neg (by simp [hscr])]
  dsimp only
  rw [hadj, hoff, List.drop_length]
  simp only [fuPxiDeviceWriteChunksLoop]
  simp only [fuPxiDeviceFwUpgrade]
  rw [if_neg (by omega)]
  by_cases hop : (dev 0).opcode ≠ CMD_FW_UPGRADE
  · rw [if_pos hop]
    dsimp only
    constructor
    · intro e he
      simp only [List.cons_append, List.nil_append, List.append_nil,
        List.mem_cons, List.not_mem_nil, or_false] at he
      rcases he with rfl | rfl | rfl | rfl <;> rfl
    · simp
  · rw [if_neg hop]
    dsimp only
    constructor
    · intro e he
      simp only [List.cons_append, List.nil_append, List.append_nil,
        List.mem_cons, List.not_mem_nil, or_false] at he
      rcases he with rfl | rfl | rfl | rfl | rfl <;> rfl
    · simp

/-- C9 (witness): the already-complete one-object session (offset 1,
checksum 7 for the image of the single byte 7) passes the resume check and
the attempt's trace goes straight to the upgrade request. -/
theorem c9_witness :
    fuPxiDeviceCheckSupportResume ⟨0, 0, 1, 7, 4096, 4, 2, 1⟩ [7] =
      Except.ok () ∧
    Event.upgradeReq (fuPxiDeviceFwUpgradeReq [7] [49]) ∈
      (fuPxiDeviceWriteFirmware [7] [49] initResDone devUpgradeEcho).1 := by
  have h := c9_resume_complete ⟨0, 0, 1, 7, 4096, 4, 2, 1⟩ [7]
    (by decide) (by decide) rfl
  exact ⟨h.1, (h.2 [49] initResDone devUpgradeEcho (by decide) (by decide)).2⟩

/-- The object-create exchange does not advance the packet-run counter. -/
theorem packetRunsOk_skip_create (b a l o c : Nat) (t : List Event) :
    packetRunsOk b (Event.objectCreate a l :: Event.createAck o :: t) c =
      packetRunsOk b t c := rfl

/-- C10 (implicit): a negotiated `prn_threshold` of zero behaves exactly as
threshold one — the `prn >= self->prn_threshold` test fires after every
packet — and, for every threshold, the engine never writes more than
`max(prn_threshold, 1)` packets between awaited notifications in any chunk
transfer, whatever its outcome. -/
theorem c10_prn_zero_bound :
    (∀ (dev : Dev) (packets : List (Nat × List Nat)) (prn ndx cdev : Nat),
      fuPxiDeviceWritePackets dev 0 packets prn ndx cdev =
        fuPxiDeviceWritePackets dev 1 packets prn ndx cdev) ∧
    (∀ (st : OtaState) (dev : Dev) (ndx addr : Nat) (data : List Nat),
      packetRunsOk (max st.prn_threshold 1)
        (fuPxiDeviceWriteChunk st dev ndx addr data).1 0 = true) := by
  constructor
  · intro dev packets prn ndx cdev
    exact writePackets_thr_zero_eq_one dev packets prn ndx cdev
  · intro st dev ndx addr data
    simp only [fuPxiDeviceWriteChunk]
    rcases hc : fuPxiDeviceFwObjectCreate dev ndx addr data.length with ⟨evsC, resC⟩
    have hfst : evsC = [Event.objectCreate addr data.length,
        Event.createAck (dev ndx).opcode] := by
      rw [← fwObjectCreate_fst dev ndx addr data.length, hc]
    cases resC with
    | error e =>
        dsimp only
        rw [hfst]
        rfl
    | ok ndx1 =>
        dsimp only
        rcases hw : fuPxiDeviceWritePackets dev st.prn_threshold
            (splitChunksAt data addr st.mtu_size) 0 ndx1 0 with ⟨evs2, res2⟩
        have hruns : packetRunsOk (max st.prn_threshold 1) evs2 0 = true := by
          have := writePackets_runs dev st.prn_threshold
            (splitChunksAt data addr st.mtu_size) 0 ndx1 0 (by omega)
          rw [hw] at this
          exact this
        cases res2 with
        | error e =>
            dsimp only
            rw [hfst, List.cons_append, List.cons_append, List.nil_append,
              packetRunsOk_skip_create]
            exact hruns
        | ok pr =>
            obtain ⟨ndx2, cdev⟩ := pr
            dsimp only
            split <;>
            · dsimp only
              rw [hfst, List.cons_append, List.cons_append, List.nil_append,
                packetRunsOk_skip_create]
              exact hruns

end PxiRf
